import Mathlib

/-!
Verification of the word-search generator (src/gen/word-search-gen.py).

Modelling conventions used by this shallow embedding:
- The mutable N×N `board` (a list of lists of `str | None` in the source) is
  modelled as a total function from integer coordinates to `Option Char`.
  Every read and write the program performs happens at coordinates that the
  placement checker has validated (or that the filler iterates over inside
  `range(board_size)`), so the function model agrees with the source on every
  executed access.
- Words are lists of characters (`str` iteration in the source walks chars).
- Randomness is modelled by explicit oracle parameters, constrained in the
  theorems exactly as the Python library guarantees: `random.shuffle`
  permutes its argument, `random.choice(xs)` returns a member of `xs`, and
  `random.randint(a, b)` returns an integer in the closed interval `[a, b]`.
- `positions.pop()` removes the last element of the list; the loop here walks
  the reversed list so that popping becomes taking the head, and reverses the
  remainder back on exit.  This is the standard structural rendering of a
  pop-from-the-end loop and changes nothing observable.
-/

namespace WordSearchGen

/-- A grid cell holds `none` (the `None` of the source) or one character. -/
abbrev Board := Int → Int → Option Char

/-- Integer pair `(row, col)`.  Kept as integers because the placement
arithmetic `row + i * d_row` can leave `Nat` range. -/
abbrev Position := Int × Int

/-- Integer pair `(d_row, d_col)`. -/
abbrev Direction := Int × Int

/-- Functional update of one cell, the model of `board[r][c] = ch`. -/
def setCell (board : Board) (r c : Int) (ch : Char) : Board :=
  fun r' c' => if r' = r ∧ c' = c then some ch else board r' c'

/-- Model of `init_board`: every cell starts as `None`.  The size argument
only fixes the extent of the Python list of lists; the functional model is
`none` everywhere and all accesses stay inside the checked range. -/
def init_board (_board_size : Nat) : Board := fun _ _ => none

/-- The raw word list literal of `get_vocabulary` (source lines 15-132),
transcribed verbatim. -/
def rawVocabulary : List String := [
        "SEA", "BASE", "LINE", "PLANE", "SUN", "TUNE", "PINE", "LENS", "NEARS", "SENSE",
        "ARRAY", "FOCUS", "HORIZON", "TRAVEL", "CLEAR", "WAVES", "STREAM", "BRIGHT", "SHADOW",
        "GLOW", "TRACE", "POINT", "VECTOR", "CIRCUIT", "LIGHT", "SHORE", "DEPTH", "CROSS",
        "SILENCE", "SOUND", "PATH", "TRACK", "MARK", "RANGE", "PEAK", "VALLEY", "SPACE",
        "TIME", "FIELD", "CLOUD", "STORM", "WIND", "TREE", "FIRE", "EARTH", "MOON", "STAR",
        "RIVER", "MOUNTAIN", "OCEAN", "DESERT", "CAVE", "ROCK", "FLOOD", "DREAM", "NIGHT",
        "DAY", "SKY", "BRIDGE", "FLOW", "SOURCE", "FALL", "RISE", "ARC", "SPHERE", "PLANE",
        "SHAPE", "FORM", "COLOR", "WALL", "GATE", "DOOR", "WINDOW", "TOWER", "ROAD", "SIGN",
        "PATHWAY", "PORT", "ANCHOR", "SAIL", "WHEEL", "CIRCLE", "FOCUS", "BEAM", "RAIL",
        "AXIS", "POINT", "LEVEL", "LINE", "ANGLE", "CURVE", "LOOP", "CHAIN", "BRANCH",
        "ROOT", "LEAF", "BARK", "STEM", "FRUIT", "SEED", "BLOOM", "PETAL", "CROWN",
        "STONE", "SHELL", "WAVE", "TIDE", "CURRENT", "SHORE", "BEACH", "CLIFF", "BAY",
        "HARBOR", "PORTAL", "CHANNEL", "PILLAR", "ARCH", "COLUMN", "LANTERN", "FIREPLACE",
        "CAMP", "OUTPOST", "FORT", "CASTLE", "CITADEL", "PALACE", "HALL", "ARENA", "DOME",
        "GALLERY", "VAULT", "LAB", "STATION", "BASE", "HUB", "CENTER", "GRID", "NETWORK",
        "FRAME", "MESH", "LATTICE", "SPINE", "CORE", "NODE", "BOND", "LINK", "WIRE", "CABLE",
        "ABILITY", "ABANDON", "ABDUCT", "ABHOR", "ABIDE", "ABNORMAL", "ABOLISH", "ABOUND", "ABRASIVE", "ABSENT",
        "ABSOLUTE", "ABSORB", "ABSTRACT", "ABUNDANT", "ACADEMY", "ACCELERATE", "ACCENT", "ACCEPT", "ACCESS", "ACCIDENT",
        "ACCOMMODATE", "ACCOMPANY", "ACCOMPLISH", "ACCORD", "ACCOUNT", "ACCUSE", "ACQUIRE", "ADDRESS", "ADVANCE", "ADVERSE",
        "ADVICE", "AESTHETIC", "AFFECTION", "AFFIRM", "AFFORD", "AGGRESSIVE", "ALLEGRO", "ALREADY", "AMAZING", "ANCIENT",
        "ANGRY", "ANIMAL", "ANALYZE", "ANCIENT", "ANXIETY", "APPEAL", "APPOINT", "APPROVE", "ARCADE", "ARRANGE",
        "ARRIVE", "ARTISTIC", "ASSEMBLE", "ASSAULT", "ASSERT", "ASSESS", "ASSIGN", "ASSIST", "ASSUME", "ASTRONOMY",
        "ATHLETE", "ATROCITY", "BALANCE", "BARRIER", "BEACON", "BENEFIT", "BICYCLE", "BLESSING", "BORROW", "BRAVERY",
        "BREATHE", "BROTHER", "CAUTION", "CENTER", "CHAMBER", "CLIMATE", "COGNITIVE", "COMBINE", "COMPASS", "CREATE",
        "CRYSTAL", "CURIOUS", "CYLINDER", "DARING", "DEFEND", "DECENT", "DELICATE", "DILIGENT", "DISEASE", "DISCARD",
        "DOMINATE", "DOUBT", "DYNAMIC", "EDUCATION", "ENDURE", "ELASTIC", "ELEVATE", "ENLIGHTEN", "ESSENCE", "EXCITED",
        "FAMOUS", "FASHION", "FREEDOM", "FRAGILE", "FROSTED", "GATHER", "GENUINE", "GRATEFUL", "GROUND", "GROWTH",
        "HARMONY", "HEAVEN", "HERITAGE", "IMAGINE", "IMPROVE", "INSPIRE", "INVADE", "JOURNEY", "JUSTICE", "JUNGLE",
        "KITCHEN", "KINGDOM", "LABORATORY", "LEGACY", "Lighthouse", "LIBERTY", "LIVELY", "MODERN", "MOTIVE", "MYSTIC",
        "NATURAL", "NOBLE", "NUCLEUS", "OPPOSITE", "ORGANIC", "ORIGIN", "PEACEFUL", "PLANET", "PLENTY", "PROGRESS",
        "QUALITY", "QUAINT", "REFORM", "REFLECT", "REPOSE", "REVEAL", "RESTORE", "RESCUE", "RICH", "SECURE", 
        "SENTENCE", "SIMPLE", "SOLUTION", "SPIRITUAL", "STORMY", "STRIVE", "SUCCESS", "SYNERGY", "THEORY", "THRIVING",
        "TIGER", "TOPICAL", "TRIUMPH", "TURBINE", "UNFOLD", "UNITE", "UNIQUE", "VACANT", "VIBRANT", "VISION",
        "WHOLESOME", "WONDER", "WORTH", "YEARNING", "ZEALOUS", "ZENITH", "ZEPHYR", "ABACUS", "ABDUCTED", "ABDUCTS", 
        "ABIDING", "ABSENT", "ABSENTS", "ABSORB", "ABSORBED", "ABSORBS", "ACCIDENT", "ACCIDENTALLY", "ACCIDENTS", 
        "ACCLAIM", "ACCLAIMED", "ACCLAIMS", "ACCOMMODATE", "ACCOMMODATED", "ACCOMMODATES", "ACCOMPANY", "ACCOMPANIED", 
        "ACCOMPANIES", "ACCOMPANYING", "ACCOUNTABLE", "ACCOUNTABLY", "ACCOUNTED", "ACCOUNTING", "ACCRETION", 
        "ACCREDITED", "ACCREDITS", "ACCUMULATE", "ACCUMULATED", "ACCUMULATES", "ACCUMULATING", "ACCURACY", "ACCURATELY",
        "ACCUSE", "ACCUSED", "ACCUSES", "ACCUSE", "ACCUSES", "ACQUIRER", "AFFAIR", "AFFAIRS", "AFFECTION", "AFFILIATED",
        "AFFILIATE", "AFFIRM", "AFFORDABLE", "AFFORDING", "AFFORDS", "AFFIX", "AFFIRMATION", "AFFIRMATIVE", 
        "AFRAID", "AGENT", "AGENT", "AGENTS", "AGGRESSIVE", "AGITATE", "AGILITY", "AGREE", "AGREEING", "AGREEMENT",
        "AGREEMENTS", "AGREEABLE", "AGREEABLES", "ALLEGRO", "ANALYSIS", "ANALYZE", "AFFECT", "AFFECTED", "AFFECTS",
        "AFFECTIONATE", "AGGRESSIVE", "AGAINST", "AGITATED", "ASSAULTED", "ATHLETE", "ATHLETES", "AGITATING", 
        "ABOMINABLE", "ABHORRENT", "AFRICAN", "AGGRAVATE", "ABRUPT", "ANALOGY", "ANALYSIS", "GROWTH", "GROWING", 
        "GUSHING", "GUSH", "GRADUAL", "GENIUS", "GENERATE", "GENUINE", "GENERATION", "GENERATIONAL", "GAINFUL",
        "GALVANIZE", "GAMBLE", "GATHERING", "GENUINELY", "GREAT", "GRIT", "GRIND", "GRACEFUL", "GLASS", "GENOME", 
        "GROUND", "GALLANT", "GENERATOR", "GRATEFUL", "GAS", "GAME", "GUSH", "GIGANTIC", "GLOW", "GUTS", 
        "GENUINE", "GRANITE", "GROWL", "GOAL", "GARMENT", "GLASS", "GLIMMER", "GUILD", "GARISH", "GARNISH",
        "GATE", "GRAND", "GILD", "GLOWING", "GIVE", "GASOLINE", "GADGET", "GAMING", "GAMES", "GOODS", 
        "GOLD", "GABBLE", "GIBBERISH", "GAZE", "GRACE", "GIVEAWAY", "GREATNESS", "GRAND", "GLOOMY", "GOOD",
        "GUARANTEE", "GIFT", "GRAND", "GENETIC", "GLOSS", "GLOW", "GRIMM", "GAY",
        "Thane", "Alms", "Bane", "Grim", "Fate", "Wyrm", "Laird", "Sire", "Knight", "Sword",
        "Fealty", "Crest", "Vale", "Loom", "Fief", "Wit", "Hearth", "Rune", "Pagan", "Moot",
        "Wit", "Froth", "Glen", "Harold", "Lance", "Bane", "Vane", "Wold", "Lamb", "Hallow",
        "Gale", "Valkyrie", "Foe", "Doom", "Myth", "Rook", "Briar", "Trove", "Grave", "Lore",
        "Vow", "Oath", "Fleet", "Mire", "Spire", "Gloom", "Thane", "Cleave", "Sear", "Wane",
        "Vast", "Elder", "Stone", "Mead", "Forge", "Rage", "Valkyr", "Mist", "Wraith", "Henge",
        "Fate", "Thrift", "Cairn", "Fled", "Cleave", "Raven", "Rogue", "Warden", "Vile", "Ash",
        "Weald", "Gore", "Grim", "Keen", "Wrath", "Blight", "Crown", "Vail", "Thorn", "Flesh",
        "Troll", "Scorn", "Blade", "Ghoul", "Fell", "Jarl", "Fey", "Dread", "Reeve", "Purge",
        "Frost", "Vile", "Seer", "Vane", "Fodder", "Prowl", "Mire", "Stray", "Doom", "Rook",
        "Pale", "Reck", "Thorn", "Moth", "Hag", "Ravine", "Ruin", "Gale", "Rook", "Plague",
        "Rime", "Haunt", "Hound", "Purge", "Cairn", "Altar", "Ashen", "Rage", "Flare", "Pest",
        "Shade", "Thrift", "Ravage", "Loom", "Mark", "Grit", "Sever", "Tale", "Witch", "Worm",
        "Glade", "Skull", "Crux", "Veld", "Gloom", "Crypt", "Blaze", "Grave", "Forge", "Vanquish",
        "ABILITY", "ACCESS", "ACCOUNT", "ACHIEVE", "ACQUIRE", "ACTION", "ACTIVITY", "ADDITION", "ADDRESS",
        "ADVANCE", "ADVENTURE", "ADVICE", "AFFECT", "AGENCY", "AGREE", "AIRPORT", "ALERT", "ALIGN", "ALIVE",
        "AMAZING", "ANALYZE", "ANCIENT", "ANGER", "ANIMAL", "ANSWER", "APPEAL", "APPLY", "APPROACH", "ARCHIVE",
        "AREA", "ARGUMENT", "ARRANGE", "ARREST", "ARRIVAL", "ARTICLE", "ARTIST", "ASPECT", "ASSIGN", "ASSIST",
        "ASSUME", "ASSURE", "ATTACH", "ATTACK", "ATTEMPT", "ATTEND", "ATTRACT", "AUTHENTIC", "AUTHORITY",
        "AWESOME", "BALANCE", "BANDAGE", "BARRIER", "BATTLE", "BEAUTY", "BECOME", "BELIEVE", "BENEFIT",
        "BETRAY", "BIRTHDAY", "BLADE", "BLANKET", "BLESS", "BLOCK", "BOARD", "BOMBARD", "BONUS", "BORDER",
        "BOTTLE", "BRAIN", "BRANCH", "BREATH", "BRIDGE", "BRIGHT", "BROKEN", "BUDGET", "BULLET", "BUNDLE",
        "BURDEN", "BUTTON", "CABINET", "CAMERA", "CAMPAIGN", "CANDIDATE", "CAPACITY", "CAPTURE", "CAREER",
        "CARRIAGE", "CARRIER", "CAUTION", "CELEBRATE", "CENTER", "CENTRAL", "CEREMONY", "CHAIR", "CHALLENGE",
        "CHAMBER", "CHANGE", "CHANNEL", "CHARGE", "CHARITY", "CHARTER", "CHASE", "CHECK", "CHIEF", "CHOICE",
        "CIRCLE", "CITIZEN", "CLARIFY", "CLASSIC", "CLEANSE", "CLIENT", "CLIMATE", "CLOSURE", "CLUSTER",
        "COLLECT", "COLLEGE", "COLONY", "COLOR", "COMBAT", "COMEDY", "COMMAND", "COMMENT", "COMMIT",
        "COMMON", "COMMUNICATE", "COMPARE", "COMPANY", "COMPETE", "COMPILE", "COMPLEX", "COMPLY", "CONCEPT",
        "CONCERN", "CONCLUDE", "CONDUCT", "CONFERENCE", "CONFIRM", "CONFLICT", "CONFRONT", "CONGRESS",
        "CONNECT", "CONQUER", "CONSENT", "CONSIDER", "CONSIST", "CONSTANT", "CONSTRUCT", "CONSULT", "CONTACT",
        "CONTAIN", "CONTENT", "CONTEST", "CONTEXT", "CONTINUE", "CONTRACT", "CONTROL", "CONVERT", "CONVINCE",
        "COOPERATE", "COPYRIGHT", "CORNER", "CORRECT", "CORRIDOR", "COUNTRY", "COURAGE", "COURSE", "CREATE",
        "CREATOR", "CREDIT", "CRISIS", "CRITICAL", "CROWD", "CULTURE", "CUSTOM", "CYCLE", "DAMAGE", "DANGER",
        "DATABASE", "DEADLINE", "DEBATE", "DECIDE", "DECLARE", "DECLINE", "DEDICATE", "DEFEAT", "DEFEND",
        "DEFENSE", "DEFINE", "DEGREE", "DELAY", "DELETE", "DELIVER", "DEMAND", "DEMONSTRATE", "DENY",
        "DEPART", "DEPEND", "DEPOSIT", "DEPRESS", "DERIVE", "DESCRIBE", "DESERT", "DESIGN", "DESIRE",
        "DETECT", "DETERMINE", "DEVELOP", "DEVICE", "DIAGNOSE", "DIFFER", "DIGITAL", "DIGNITY", "DIRECT",
        "DISABLE", "DISAGREE", "DISAPPEAR", "DISARM", "DISCOUNT", "DISCOVER", "DISCUSS", "DISMISS", "DISPLAY",
        "DISPOSE", "DISTANCE", "DISTURB", "DIVIDE", "DIVORCE", "DOCTOR", "DOCUMENT", "DOMAIN", "DOMINATE",
        "DONATE", "DOUBLE", "DOUBT", "DOWNLOAD", "DRAMA", "DREAM", "DRESS", "DRIVE", "DROUGHT", "DURABLE",
        "DYNAMIC", "EAGER", "EARLY", "EARNEST", "EARTH", "EASE", "EAST", "EASY", "ECONOMIC", "EDITION",
        "EDITOR", "EDUCATE", "EFFECT", "EFFORT", "ELABORATE", "ELECTION", "ELECTRIC", "ELEVATE", "ELIMINATE",
        "EMERGENCY", "EMOTION", "EMPHASIS", "EMPOWER", "ENABLE", "ENACT", "ENCOUNTER", "ENDANGER", "ENDLESS",
        "ENDORSE", "ENDURE", "ENERGY", "ENGAGE", "ENGINE", "ENHANCE", "ENJOY", "ENLARGE", "ENLIST", "ENRICH",
        "ENSURE", "ENTERPRISE", "ENTIRE", "ENTITLE", "ENTRY", "ENVIRONMENT", "EPISODE", "EQUALITY", "EQUATION",
        "EQUIP", "ESSENCE", "ESTABLISH", "ESTIMATE", "ETHICS", "EVACUATE", "EVALUATE", "EVENT", "EVIDENCE",
        "EVOLVE", "EXACT", "EXAMPLE", "EXCEED", "EXCEL", "EXCEPT", "EXCHANGE", "EXCITE", "EXECUTE", "EXEMPT",
        "EXERCISE", "EXHAUST", "EXHIBIT", "EXIST", "EXPAND", "EXPECT", "EXPENSE", "EXPERIENCE", "EXPLAIN",
        "EXPLORE", "EXPORT", "EXPOSE", "EXPRESS", "EXTEND", "EXTREME", "EYEWITNESS", "FABRIC", "FACTORY",
        "FAILURE", "FAITH", "FAMILY", "FAMOUS", "FANTASY", "FARMLAND", "FASHION", "FEATURE", "FEDERAL",
        "FEELING", "FESTIVAL", "FIBER", "FICTION", "FIELD", "FIERCE", "FIGHTER", "FIGURE", "FILM", "FILTER",
        "FINALIZE", "FINANCE", "FINDING", "FIREWORK", "FIRST", "FIXTURE", "FLAVOR", "FLEXIBLE", "FLIGHT",
        "FLORA", "FLOURISH", "FOCUS", "FOLLOW", "FOOTBALL", "FOREIGN", "FORGE", "FORMAL", "FORMULA", "FORTUNE",
        "ABLE", "ABUSE", "ACE", "ACID", "ACT", "ADD", "AIR", "AIM", "ALONE", "AND",
        "ANGER", "ANIMAL", "APPLE", "AREA", "ARM", "ART", "ASLEEP", "AWAKE", "BACK", "BALL",
        "BAND", "BANK", "BAR", "BASE", "BEAM", "BEAR", "BELL", "BILL", "BIRD", "BRAIN",
        "BROOK", "BUS", "CAGE", "CAP", "CAR", "CAST", "CAT", "COLD", "COLOR", "CROWN",
        "DART", "DAY", "DOG", "DOOR", "DOWN", "DREAM", "EAR", "EDGE", "EGG", "ELBOW",
        "EYE", "FALL", "FARM", "FAST", "FEAR", "FIRE", "FIGHT", "FOOT", "GAME", "GLOW",
        "GOLD", "GRASS", "GROUND", "HAND", "HILL", "HOME", "HOPE", "HURT", "JUMP", "JUDGE",
        "KING", "KISS", "KNIFE", "LACE", "LAND", "LION", "LAMP", "LINE", "LIST", "LOST",
        "MAP", "MATCH", "MOUSE", "NOISE", "NIGHT", "OPEN", "OPINION", "PARK", "PEN", "PINE",
        "PLACE", "PLANT", "PLUG", "RACE", "RAIN", "ROAD", "RISE", "RING", "SAND", "SING",
        "SEA", "BASE", "LINE", "PLANE", "SUN",
        "TUNE", "PINE", "LENS", "NEARS", "SENSE"
]

/-- ASCII uppercasing of one character, the effect of `str.upper` on the
characters occurring in this program (all are ASCII). -/
def upperChar (c : Char) : Char :=
  if ('a' ≤ c ∧ c ≤ 'z') then Char.ofNat (c.toNat - 32) else c

/-- ASCII uppercasing of a word, the model of `word.upper()`. -/
def upper (s : String) : String :=
  String.mk (s.data.map upperChar)

/-- Relational model of `get_vocabulary`:
`vocabulary = [word.upper() for word in list(set(vocabulary))]` followed by
`random.shuffle(vocabulary)`.  `list(set(...))` enumerates the distinct raw
words in an unspecified order (some duplicate-free list `l` with the same
members as `rawVocabulary`), and the shuffle returns a permutation of the
uppercased list. -/
def get_vocabulary_spec (out : List String) : Prop :=
  ∃ l : List String,
    l.Nodup ∧ (∀ x, x ∈ l ↔ x ∈ rawVocabulary) ∧ out.Perm (l.map upper)

/-- Model of `create_all_directions`:
`[d for d in product([-1,0,1], [-1,0,1]) if d[0] != 0 and d[1] != 0]`. -/
def create_all_directions : List Direction :=
  ((([-1, 0, 1] : List Int).bind fun a =>
      (([-1, 0, 1] : List Int).map fun b => ((a, b) : Direction)))).filter
    fun d => d.1 != 0 && d.2 != 0

/-- Row coordinate of the cell `i` steps from `position` along `direction`:
`row + i * d_row`. -/
def cellR (position direction : Position) (i : Nat) : Int :=
  position.1 + (i : Int) * direction.1

/-- Column coordinate of the cell `i` steps from `position` along
`direction`: `col + i * d_col`. -/
def cellC (position direction : Position) (i : Nat) : Int :=
  position.2 + (i : Int) * direction.2

/-- The bounds check of `can_place_word`:
`0 <= r < board_size` and `0 <= c < board_size` for step `i`. -/
def inBoundsCell (board_size : Nat) (position direction : Position) (i : Nat) : Prop :=
  0 ≤ cellR position direction i ∧ cellR position direction i < (board_size : Int) ∧
    0 ≤ cellC position direction i ∧ cellC position direction i < (board_size : Int)

/-- The loop of `can_place_word`, one step per character, carrying the
running index `i` of `enumerate(word)`. -/
def can_place_from (board : Board) (board_size : Nat) (position direction : Position) :
    Nat → List Char → Bool
  | _, [] => true
  | i, ch :: rest =>
    let r := cellR position direction i
    let c := cellC position direction i
    if r < 0 ∨ (board_size : Int) ≤ r ∨ c < 0 ∨ (board_size : Int) ≤ c then false
    else if board r c ≠ none ∧ board r c ≠ some ch then false
    else can_place_from board board_size position direction (i + 1) rest

/-- Model of `can_place_word(board, board_size, word, position, direction)`. -/
def can_place_word (board : Board) (board_size : Nat) (word : List Char)
    (position direction : Position) : Bool :=
  can_place_from board board_size position direction 0 word

/-- The loop of `place_word`, one write per character, carrying the running
index `i` of `enumerate(word)`. -/
def place_from (board : Board) (position direction : Position) : Nat → List Char → Board
  | _, [] => board
  | i, ch :: rest =>
    place_from (setCell board (cellR position direction i) (cellC position direction i) ch)
      position direction (i + 1) rest

/-- Model of `place_word(board, word, position, direction)`. -/
def place_word (board : Board) (word : List Char) (position direction : Position) : Board :=
  place_from board position direction 0 word

/-- The `while not placed and len(positions) != 0` loop of `populate_board`,
walking the reversed position pool (so the head is the element `pop()`
returns), accumulating `pop_positions`, and drawing the direction for attempt
`k` from the oracle `dirAt`.  Returns the mutated board, the remaining
(reversed) pool, the consumed positions and the `placed` flag. -/
def try_place_loop (board : Board) (board_size : Nat) (word : List Char)
    (dirAt : Nat → Direction) :
    List Position → List Position → Nat → Board × List Position × List Position × Bool
  | [], pop_positions, _ => (board, [], pop_positions, false)
  | position :: rest, pop_positions, k =>
    let pop_positions2 := pop_positions ++ [position]
    let direction := dirAt k
    if can_place_word board board_size word position direction then
      (place_word board word position direction, rest, pop_positions2, true)
    else
      try_place_loop board board_size word dirAt rest pop_positions2 (k + 1)

/-- The per-word attempt search of `populate_board`: run the while-loop on
the pool (popping from the end) and restore the orientation of the leftover
pool. -/
def try_place_word (board : Board) (board_size : Nat) (word : List Char)
    (dirAt : Nat → Direction) (positions pop_positions : List Position) :
    Board × List Position × List Position × Bool :=
  let t := try_place_loop board board_size word dirAt positions.reverse pop_positions 0
  (t.1, t.2.1.reverse, t.2.2.1, t.2.2.2)

/-- Fuel-indexed version of `try_place_loop`: `none` means the loop was cut
off after `fuel` iterations.  Used to state that the while-loop halts within
`positions.length` iterations. -/
def try_place_loop_fuel (board : Board) (board_size : Nat) (word : List Char)
    (dirAt : Nat → Direction) :
    Nat → List Position → List Position → Nat →
      Option (Board × List Position × List Position × Bool)
  | _, [], pop_positions, _ => some (board, [], pop_positions, false)
  | 0, _ :: _, _, _ => none
  | fuel + 1, position :: rest, pop_positions, k =>
    let pop_positions2 := pop_positions ++ [position]
    let direction := dirAt k
    if can_place_word board board_size word position direction then
      some (place_word board word position direction, rest, pop_positions2, true)
    else
      try_place_loop_fuel board board_size word dirAt fuel rest pop_positions2 (k + 1)

/-- Model of the initial candidate pool of `populate_board`:
`list(product(range(0, board_size - 1), range(0, board_size - 1)))`. -/
def initial_positions (board_size : Nat) : List Position :=
  (List.range (board_size - 1)).bind fun r =>
    (List.range (board_size - 1)).map fun c => (((r : Nat) : Int), ((c : Nat) : Int))

/-- Engine state during `populate_board`: the board, the local variables
`positions`, `pop_positions`, `words` and `max_length`. -/
abbrev EngineState := Board × List Position × List Position × List (List Char) × Nat

/-- One iteration of the `for word in vocabulary` loop of `populate_board`:
merge the consumed positions back (`positions += pop_positions;
pop_positions.clear()`), shuffle (oracle `shuffle` applied at word index
`iw.1`), then run the attempt search for the word `iw.2`, appending it to
`words` and updating `max_length` when placed. -/
def populate_step (board_size : Nat) (shuffle : Nat → List Position → List Position)
    (dirAt : Nat → Nat → Direction) (st : EngineState) (iw : Nat × List Char) :
    EngineState :=
  let positions2 := shuffle iw.1 (st.2.1 ++ st.2.2.1)
  let t := try_place_word st.1 board_size iw.2 (dirAt iw.1) positions2 []
  if t.2.2.2 then
    (t.1, t.2.1, t.2.2.1, st.2.2.2.1 ++ [iw.2], max iw.2.length st.2.2.2.2)
  else
    (t.1, t.2.1, t.2.2.1, st.2.2.2.1, st.2.2.2.2)

/-- Model of `populate_board(board, board_size, vocabulary, directions)`.
Returns the mutated board together with the `(words, max_length)` pair the
source returns.  The `directions` argument is consumed in the source only
through `random.choice(directions)`, modelled by the oracle `dirAt` (the
theorems constrain `dirAt` to return members of `directions`). -/
def populate_board (board : Board) (board_size : Nat) (vocabulary : List (List Char))
    (directions : List Direction) (shuffle : Nat → List Position → List Position)
    (dirAt : Nat → Nat → Direction) : Board × List (List Char) × Nat :=
  let st := vocabulary.enum.foldl (populate_step board_size shuffle dirAt)
    (board, initial_positions board_size, [], [], 0)
  (st.1, st.2.2.2.1, st.2.2.2.2)

/-- Fuel-indexed `populate_step`: the attempt loop gets exactly
`positions.length` iterations of fuel. -/
def populate_step_fuel (board_size : Nat) (shuffle : Nat → List Position → List Position)
    (dirAt : Nat → Nat → Direction) (stOpt : Option EngineState) (iw : Nat × List Char) :
    Option EngineState :=
  match stOpt with
  | none => none
  | some st =>
    let positions2 := shuffle iw.1 (st.2.1 ++ st.2.2.1)
    match try_place_loop_fuel st.1 board_size iw.2 (dirAt iw.1) positions2.length
        positions2.reverse [] 0 with
    | none => none
    | some t =>
      some (if t.2.2.2 then
          (t.1, t.2.1.reverse, t.2.2.1, st.2.2.2.1 ++ [iw.2], max iw.2.length st.2.2.2.2)
        else
          (t.1, t.2.1.reverse, t.2.2.1, st.2.2.2.1, st.2.2.2.2))

/-- Fuel-indexed `populate_board`: `none` would mean some attempt loop failed
to finish within its fuel. -/
def populate_board_fuel (board : Board) (board_size : Nat) (vocabulary : List (List Char))
    (_directions : List Direction) (shuffle : Nat → List Position → List Position)
    (dirAt : Nat → Nat → Direction) : Option (Board × List (List Char) × Nat) :=
  match vocabulary.enum.foldl (populate_step_fuel board_size shuffle dirAt)
      (some (board, initial_positions board_size, [], [], 0)) with
  | none => none
  | some st => some (st.1, st.2.2.2.1, st.2.2.2.2)

/-- The body of the inner loop of `fill_empty_cells`: overwrite cell
`(row, col)` with `chr(randint(65, 90))` when it is still `None`. -/
def fill_cell (randInt : Nat → Nat → Nat) (row : Nat) (b : Board) (col : Nat) : Board :=
  if b (row : Int) (col : Int) = none then
    setCell b (row : Int) (col : Int) (Char.ofNat (randInt row col))
  else b

/-- The inner `for col in range(board_size)` loop of `fill_empty_cells`. -/
def fill_row (randInt : Nat → Nat → Nat) (board_size : Nat) (b : Board) (row : Nat) : Board :=
  (List.range board_size).foldl (fill_cell randInt row) b

/-- Model of `fill_empty_cells(board, board_size)`, with
`random.randint(ord('A'), ord('Z'))` modelled by the oracle `randInt`
indexed by the cell being filled. -/
def fill_empty_cells (board : Board) (board_size : Nat) (randInt : Nat → Nat → Nat) : Board :=
  (List.range board_size).foldl (fill_row randInt board_size) board

/-- Letter-monotonicity between boards: every cell already holding a letter
holds the same letter afterwards. -/
def BoardLE (b1 b2 : Board) : Prop :=
  ∀ r c : Int, ∀ v : Char, b1 r c = some v → b2 r c = some v

/-- A word is correctly readable on a board: some start position and
direction place every character of the word, inside the bounds, at grid
cells holding exactly that character. -/
def PlacedOK (board_size : Nat) (board : Board) (W : List Char) : Prop :=
  ∃ position direction : Position,
    ∀ i : Nat, (h : i < W.length) →
      inBoundsCell board_size position direction i ∧
        board (cellR position direction i) (cellC position direction i) =
          some (W.get ⟨i, h⟩)


/-! ### Placement checker: characterization -/

theorem can_place_from_iff (board : Board) (board_size : Nat) (position direction : Position) :
    ∀ (l : List Char) (j : Nat),
      can_place_from board board_size position direction j l = true ↔
        ∀ i : Nat, (h : i < l.length) →
          inBoundsCell board_size position direction (j + i) ∧
            (board (cellR position direction (j + i)) (cellC position direction (j + i)) = none ∨
              board (cellR position direction (j + i)) (cellC position direction (j + i)) =
                some (l.get ⟨i, h⟩)) := by
  intro l
  induction l with
  | nil => intro j; simp [can_place_from]
  | cons ch rest ih =>
    intro j
    simp only [can_place_from]
    by_cases h1 : cellR position direction j < 0 ∨ (board_size : Int) ≤ cellR position direction j ∨
        cellC position direction j < 0 ∨ (board_size : Int) ≤ cellC position direction j
    · rw [if_pos h1]
      simp only [Bool.false_eq_true, false_iff, not_forall]
      refine ⟨0, by simp, ?_⟩
      intro hcontra
      obtain ⟨hb, _⟩ := hcontra
      simp only [Nat.add_zero] at hb
      unfold inBoundsCell at hb
      omega
    · rw [if_neg h1]
      push_neg at h1
      by_cases h2 : board (cellR position direction j) (cellC position direction j) ≠ none ∧
          board (cellR position direction j) (cellC position direction j) ≠ some ch
      · rw [if_pos h2]
        simp only [Bool.false_eq_true, false_iff, not_forall]
        refine ⟨0, by simp, ?_⟩
        intro hcontra
        obtain ⟨_, hcompat⟩ := hcontra
        simp only [Nat.add_zero] at hcompat
        have hch : (ch :: rest).get ⟨0, by simp⟩ = ch := rfl
        rw [hch] at hcompat
        tauto
      · rw [if_neg h2]
        rw [ih (j + 1)]
        constructor
        · intro hr i hi
          match i with
          | 0 =>
            simp only [Nat.add_zero]
            constructor
            · unfold inBoundsCell
              omega
            · have hch : (ch :: rest).get ⟨0, hi⟩ = ch := rfl
              rw [hch]
              tauto
          | i + 1 =>
            have hi2 : i < rest.length := by simpa using hi
            have e : j + (i + 1) = (j + 1) + i := by omega
            have hget : (ch :: rest).get ⟨i + 1, hi⟩ = rest.get ⟨i, hi2⟩ := rfl
            rw [e, hget]
            exact hr i hi2
        · intro hR i hi
          have hi2 : i + 1 < (ch :: rest).length := by simpa using Nat.succ_lt_succ hi
          have e : (j + 1) + i = j + (i + 1) := by omega
          have hget : (ch :: rest).get ⟨i + 1, hi2⟩ = rest.get ⟨i, hi⟩ := rfl
          rw [e]
          have := hR (i + 1) hi2
          rwa [hget] at this

theorem can_place_word_iff (board : Board) (board_size : Nat) (word : List Char)
    (position direction : Position) :
    can_place_word board board_size word position direction = true ↔
      ∀ i : Nat, (h : i < word.length) →
        inBoundsCell board_size position direction i ∧
          (board (cellR position direction i) (cellC position direction i) = none ∨
            board (cellR position direction i) (cellC position direction i) =
              some (word.get ⟨i, h⟩)) := by
  rw [can_place_word, can_place_from_iff]
  simp only [Nat.zero_add]


/-! ### Placement writes -/

theorem place_from_untouched (position direction : Position) :
    ∀ (l : List Char) (j : Nat) (board : Board) (r c : Int),
      (∀ i : Nat, i < l.length →
          ¬(r = cellR position direction (j + i) ∧ c = cellC position direction (j + i))) →
      place_from board position direction j l r c = board r c := by
  intro l
  induction l with
  | nil => intro j board r c _; rfl
  | cons ch rest ih =>
    intro j board r c hmiss
    simp only [place_from]
    rw [ih (j + 1)]
    · have h0 := hmiss 0 (by simp)
      simp only [Nat.add_zero] at h0
      simp only [setCell]
      rw [if_neg h0]
    · intro i hi
      have := hmiss (i + 1) (by simpa using Nat.succ_lt_succ hi)
      have e : j + (i + 1) = (j + 1) + i := by omega
      rwa [e] at this

theorem cell_inj (position direction : Position) (hdir : direction ≠ (0, 0)) :
    ∀ a b : Nat, cellR position direction a = cellR position direction b →
      cellC position direction a = cellC position direction b → a = b := by
  intro a b h1 h2
  have hd : direction.1 ≠ 0 ∨ direction.2 ≠ 0 := by
    by_contra hcon
    push_neg at hcon
    exact hdir (Prod.ext hcon.1 hcon.2)
  unfold cellR at h1
  unfold cellC at h2
  have h1m : (a : Int) * direction.1 = (b : Int) * direction.1 := by omega
  have h2m : (a : Int) * direction.2 = (b : Int) * direction.2 := by omega
  rcases hd with hd1 | hd2
  · have := mul_right_cancel₀ hd1 h1m
    exact_mod_cast this
  · have := mul_right_cancel₀ hd2 h2m
    exact_mod_cast this

theorem place_from_get (position direction : Position) (hdir : direction ≠ (0, 0)) :
    ∀ (l : List Char) (j : Nat) (board : Board) (i : Nat) (h : i < l.length),
      place_from board position direction j l (cellR position direction (j + i))
          (cellC position direction (j + i)) = some (l.get ⟨i, h⟩) := by
  intro l
  induction l with
  | nil => intro j board i h; exact absurd h (by simp)
  | cons ch rest ih =>
    intro j board i h
    match i with
    | 0 =>
      simp only [Nat.add_zero, place_from]
      rw [place_from_untouched]
      · have hget : (ch :: rest).get ⟨0, h⟩ = ch := rfl
        rw [hget]
        simp [setCell]
      · intro i2 hi2 hcon
        obtain ⟨hr, hc⟩ := hcon
        have := cell_inj position direction hdir j ((j + 1) + i2) hr hc
        omega
    | i + 1 =>
      have hi2 : i < rest.length := by simpa using h
      have e : j + (i + 1) = (j + 1) + i := by omega
      have hget : (ch :: rest).get ⟨i + 1, h⟩ = rest.get ⟨i, hi2⟩ := rfl
      simp only [place_from]
      rw [e, hget]
      exact ih (j + 1) _ i hi2

theorem place_from_preserve (position direction : Position) :
    ∀ (l : List Char) (j : Nat) (board : Board) (r c : Int) (v : Char),
      board r c = some v →
      (∀ i : Nat, (h : i < l.length) →
          cellR position direction (j + i) = r → cellC position direction (j + i) = c →
          l.get ⟨i, h⟩ = v) →
      place_from board position direction j l r c = some v := by
  intro l
  induction l with
  | nil => intro j board r c v hv _; exact hv
  | cons ch rest ih =>
    intro j board r c v hv hchar
    simp only [place_from]
    apply ih (j + 1)
    · by_cases hcell : cellR position direction j = r ∧ cellC position direction j = c
      · have hch : ch = v := by
          have := hchar 0 (by simp) (by simpa using hcell.1) (by simpa using hcell.2)
          simpa using this
        simp only [setCell]
        rw [if_pos ⟨hcell.1.symm, hcell.2.symm⟩, hch]
      · simp only [setCell]
        rw [if_neg ?_]
        · exact hv
        · intro hcon
          exact hcell ⟨hcon.1.symm, hcon.2.symm⟩
    · intro i hi hr hc
      have e : (j + 1) + i = j + (i + 1) := by omega
      rw [e] at hr hc
      have := hchar (i + 1) (by simpa using Nat.succ_lt_succ hi) hr hc
      simpa using this

theorem place_word_get (board : Board) (board_size : Nat) (word : List Char)
    (position direction : Position) (hdir : direction ≠ (0, 0))
    (hcan : can_place_word board board_size word position direction = true) :
    ∀ i : Nat, (h : i < word.length) →
      inBoundsCell board_size position direction i ∧
        place_word board word position direction (cellR position direction i)
          (cellC position direction i) = some (word.get ⟨i, h⟩) := by
  intro i h
  have hiff := (can_place_word_iff board board_size word position direction).mp hcan i h
  refine ⟨hiff.1, ?_⟩
  have := place_from_get position direction hdir word 0 board i h
  simpa [place_word] using this

theorem place_word_preserve (board : Board) (board_size : Nat) (word : List Char)
    (position direction : Position) (r c : Int) (v : Char)
    (hcan : can_place_word board board_size word position direction = true)
    (hv : board r c = some v) :
    place_word board word position direction r c = some v := by
  unfold place_word
  apply place_from_preserve position direction word 0 board r c v hv
  intro i hi hr hc
  have hiff := (can_place_word_iff board board_size word position direction).mp hcan i hi
  rcases hiff.2 with hnone | hsome
  · rw [Nat.zero_add] at hr hc
    rw [hr, hc] at hnone
    rw [hnone] at hv
    exact absurd hv (by simp)
  · rw [Nat.zero_add] at hr hc
    rw [hr, hc] at hsome
    rw [hsome] at hv
    exact Option.some_inj.mp hv


/-! ### The attempt loop and the engine fold -/

theorem try_place_loop_cases (board : Board) (board_size : Nat) (word : List Char)
    (dirAt : Nat → Direction) :
    ∀ (ps pop : List Position) (k : Nat),
      ((try_place_loop board board_size word dirAt ps pop k).2.2.2 = false ∧
          (try_place_loop board board_size word dirAt ps pop k).1 = board) ∨
        ((try_place_loop board board_size word dirAt ps pop k).2.2.2 = true ∧
          ∃ (p : Position) (k' : Nat),
            can_place_word board board_size word p (dirAt k') = true ∧
              (try_place_loop board board_size word dirAt ps pop k).1 =
                place_word board word p (dirAt k')) := by
  intro ps
  induction ps with
  | nil => intro pop k; exact Or.inl ⟨rfl, rfl⟩
  | cons position rest ih =>
    intro pop k
    simp only [try_place_loop]
    by_cases hcan : can_place_word board board_size word position (dirAt k) = true
    · rw [if_pos hcan]
      exact Or.inr ⟨rfl, position, k, hcan, rfl⟩
    · rw [if_neg hcan]
      exact ih (pop ++ [position]) (k + 1)

theorem try_place_word_cases (board : Board) (board_size : Nat) (word : List Char)
    (dirAt : Nat → Direction) (positions pop_positions : List Position) :
    ((try_place_word board board_size word dirAt positions pop_positions).2.2.2 = false ∧
        (try_place_word board board_size word dirAt positions pop_positions).1 = board) ∨
      ((try_place_word board board_size word dirAt positions pop_positions).2.2.2 = true ∧
        ∃ (p : Position) (k' : Nat),
          can_place_word board board_size word p (dirAt k') = true ∧
            (try_place_word board board_size word dirAt positions pop_positions).1 =
              place_word board word p (dirAt k')) := by
  simp only [try_place_word]
  exact try_place_loop_cases board board_size word dirAt positions.reverse pop_positions 0

theorem BoardLE_refl (b : Board) : BoardLE b b := fun _ _ _ h => h

theorem BoardLE_trans {b1 b2 b3 : Board} (h1 : BoardLE b1 b2) (h2 : BoardLE b2 b3) :
    BoardLE b1 b3 := fun r c v h => h2 r c v (h1 r c v h)

theorem PlacedOK_mono {board_size : Nat} {b1 b2 : Board} {W : List Char}
    (hle : BoardLE b1 b2) (h : PlacedOK board_size b1 W) : PlacedOK board_size b2 W := by
  obtain ⟨position, direction, hW⟩ := h
  refine ⟨position, direction, fun i hi => ?_⟩
  obtain ⟨hb, hc⟩ := hW i hi
  exact ⟨hb, hle _ _ _ hc⟩

theorem populate_step_mono (board_size : Nat) (shuffle : Nat → List Position → List Position)
    (dirAt : Nat → Nat → Direction) (st : EngineState) (iw : Nat × List Char) :
    BoardLE st.1 (populate_step board_size shuffle dirAt st iw).1 := by
  simp only [populate_step]
  rcases try_place_word_cases st.1 board_size iw.2 (dirAt iw.1)
      (shuffle iw.1 (st.2.1 ++ st.2.2.1)) [] with hc | hc
  · rw [hc.1]
    simp only [Bool.false_eq_true, if_false]
    rw [hc.2]
    exact BoardLE_refl _
  · obtain ⟨hflag, p, k', hcan, hboard⟩ := hc
    rw [hflag]
    simp only [if_true]
    rw [hboard]
    intro r c v hv
    exact place_word_preserve st.1 board_size iw.2 p (dirAt iw.1 k') r c v hcan hv

theorem populate_fold_mono (board_size : Nat) (shuffle : Nat → List Position → List Position)
    (dirAt : Nat → Nat → Direction) :
    ∀ (l : List (Nat × List Char)) (st : EngineState),
      BoardLE st.1 ((l.foldl (populate_step board_size shuffle dirAt) st)).1 := by
  intro l
  induction l with
  | nil => intro st; exact BoardLE_refl _
  | cons iw rest ih =>
    intro st
    exact BoardLE_trans (populate_step_mono board_size shuffle dirAt st iw)
      (ih (populate_step board_size shuffle dirAt st iw))

theorem populate_step_inv (board_size : Nat) (shuffle : Nat → List Position → List Position)
    (dirAt : Nat → Nat → Direction) (hdir : ∀ i k, dirAt i k ≠ (0, 0))
    (st : EngineState) (iw : Nat × List Char)
    (hinv : ∀ W ∈ st.2.2.2.1, PlacedOK board_size st.1 W) :
    ∀ W ∈ (populate_step board_size shuffle dirAt st iw).2.2.2.1,
      PlacedOK board_size (populate_step board_size shuffle dirAt st iw).1 W := by
  intro W hW
  simp only [populate_step] at hW ⊢
  rcases try_place_word_cases st.1 board_size iw.2 (dirAt iw.1)
      (shuffle iw.1 (st.2.1 ++ st.2.2.1)) [] with hc | hc
  · rw [hc.1] at hW ⊢
    simp only [Bool.false_eq_true, if_false] at hW ⊢
    rw [hc.2]
    exact hinv W hW
  · obtain ⟨hflag, p, k', hcan, hboard⟩ := hc
    rw [hflag] at hW ⊢
    simp only [if_true] at hW ⊢
    rw [hboard]
    have hle : BoardLE st.1 (place_word st.1 iw.2 p (dirAt iw.1 k')) := fun r c v hv =>
      place_word_preserve st.1 board_size iw.2 p (dirAt iw.1 k') r c v hcan hv
    rcases List.mem_append.mp hW with hold | hnew
    · exact PlacedOK_mono hle (hinv W hold)
    · have hWeq : W = iw.2 := by simpa using hnew
      subst hWeq
      refine ⟨p, dirAt iw.1 k', fun i hi => ?_⟩
      exact place_word_get st.1 board_size iw.2 p (dirAt iw.1 k') (hdir iw.1 k') hcan i hi

theorem populate_fold_inv (board_size : Nat) (shuffle : Nat → List Position → List Position)
    (dirAt : Nat → Nat → Direction) (hdir : ∀ i k, dirAt i k ≠ (0, 0)) :
    ∀ (l : List (Nat × List Char)) (st : EngineState),
      (∀ W ∈ st.2.2.2.1, PlacedOK board_size st.1 W) →
      ∀ W ∈ ((l.foldl (populate_step board_size shuffle dirAt) st)).2.2.2.1,
        PlacedOK board_size ((l.foldl (populate_step board_size shuffle dirAt) st)).1 W := by
  intro l
  induction l with
  | nil => intro st hinv; exact hinv
  | cons iw rest ih =>
    intro st hinv
    exact ih (populate_step board_size shuffle dirAt st iw)
      (populate_step_inv board_size shuffle dirAt hdir st iw hinv)


/-! ### Termination of the attempt loop -/

theorem try_place_loop_fuel_complete (board : Board) (board_size : Nat) (word : List Char)
    (dirAt : Nat → Direction) :
    ∀ (fuel : Nat) (positions pop_positions : List Position) (k : Nat),
      positions.length ≤ fuel →
      try_place_loop_fuel board board_size word dirAt fuel positions pop_positions k =
        some (try_place_loop board board_size word dirAt positions pop_positions k) := by
  intro fuel
  induction fuel with
  | zero =>
    intro positions pop k h
    have hnil : positions = [] := List.length_eq_zero.mp (Nat.le_zero.mp h)
    subst hnil
    rfl
  | succ fuel ih =>
    intro positions pop k h
    cases positions with
    | nil => rfl
    | cons position rest =>
      simp only [try_place_loop_fuel, try_place_loop]
      by_cases hcan : can_place_word board board_size word position (dirAt k) = true
      · rw [if_pos hcan, if_pos hcan]
      · rw [if_neg hcan, if_neg hcan]
        apply ih
        simp only [List.length_cons] at h
        omega

theorem populate_step_fuel_eq (board_size : Nat) (shuffle : Nat → List Position → List Position)
    (dirAt : Nat → Nat → Direction) (st : EngineState) (iw : Nat × List Char) :
    populate_step_fuel board_size shuffle dirAt (some st) iw =
      some (populate_step board_size shuffle dirAt st iw) := by
  simp only [populate_step_fuel]
  rw [try_place_loop_fuel_complete st.1 board_size iw.2 (dirAt iw.1)
    (shuffle iw.1 (st.2.1 ++ st.2.2.1)).length (shuffle iw.1 (st.2.1 ++ st.2.2.1)).reverse [] 0
    (by simp)]
  simp only [populate_step, try_place_word]

theorem populate_fold_fuel_eq (board_size : Nat) (shuffle : Nat → List Position → List Position)
    (dirAt : Nat → Nat → Direction) :
    ∀ (l : List (Nat × List Char)) (st : EngineState),
      l.foldl (populate_step_fuel board_size shuffle dirAt) (some st) =
        some (l.foldl (populate_step board_size shuffle dirAt) st) := by
  intro l
  induction l with
  | nil => intro st; rfl
  | cons iw rest ih =>
    intro st
    rw [List.foldl_cons, List.foldl_cons, populate_step_fuel_eq]
    exact ih _

theorem populate_board_fuel_eq (board : Board) (board_size : Nat)
    (vocabulary : List (List Char)) (directions : List Direction)
    (shuffle : Nat → List Position → List Position) (dirAt : Nat → Nat → Direction) :
    populate_board_fuel board board_size vocabulary directions shuffle dirAt =
      some (populate_board board board_size vocabulary directions shuffle dirAt) := by
  simp only [populate_board_fuel, populate_board, populate_fold_fuel_eq]

/-! ### Filler characterization -/

theorem fill_cells_fold_apply (randInt : Nat → Nat → Nat) (row : Nat) :
    ∀ (cols : List Nat) (b : Board) (r c : Int),
      ((cols.foldl (fill_cell randInt row) b) r c) =
        if r = (row : Int) ∧ (∃ col ∈ cols, c = (col : Int)) ∧ b r c = none then
          some (Char.ofNat (randInt row c.toNat))
        else b r c := by
  intro cols
  induction cols with
  | nil => intro b r c; simp
  | cons col cols ih =>
    intro b r c
    rw [List.foldl_cons, ih]
    by_cases hpq : r = (row : Int) ∧ c = (col : Int)
    · obtain ⟨hp, hq⟩ := hpq
      subst hp
      subst hq
      by_cases hE : b (row : Int) (col : Int) = none
      · have hb2 : fill_cell randInt row b col (row : Int) (col : Int) =
            some (Char.ofNat (randInt row col)) := by
          simp [fill_cell, hE, setCell]
        rw [if_neg (by rw [hb2]; rintro ⟨-, -, hcon⟩; exact Option.some_ne_none _ hcon)]
        rw [hb2, if_pos ⟨rfl, ⟨col, by simp, rfl⟩, hE⟩]
        simp
      · have hb2 : fill_cell randInt row b col (row : Int) (col : Int) =
            b (row : Int) (col : Int) := by
          simp [fill_cell, hE]
        rw [if_neg (by rw [hb2]; rintro ⟨-, -, hcon⟩; exact hE hcon)]
        rw [hb2, if_neg (by rintro ⟨-, -, hcon⟩; exact hE hcon)]
    · have hb2 : fill_cell randInt row b col r c = b r c := by
        simp only [fill_cell]
        by_cases hcell : b (row : Int) (col : Int) = none
        · rw [if_pos hcell]
          simp only [setCell]
          rw [if_neg (by intro hcon; exact hpq ⟨hcon.1, hcon.2⟩)]
        · rw [if_neg hcell]
      rw [hb2]
      by_cases hcond : r = (row : Int) ∧ (∃ col2 ∈ cols, c = (col2 : Int)) ∧ b r c = none
      · rw [if_pos hcond]
        rw [if_pos (show r = (row : Int) ∧ (∃ col2 ∈ col :: cols, c = (col2 : Int)) ∧
            b r c = none from ⟨hcond.1, by
              obtain ⟨col2, hmem, hc2⟩ := hcond.2.1
              exact ⟨col2, by simp [hmem], hc2⟩, hcond.2.2⟩)]
      · rw [if_neg hcond]
        rw [if_neg (show ¬(r = (row : Int) ∧ (∃ col2 ∈ col :: cols, c = (col2 : Int)) ∧
            b r c = none) from by
          rintro ⟨h1, ⟨col2, hmem, hc2⟩, h3⟩
          rcases List.mem_cons.mp hmem with hcol | hcol
          · exact hpq ⟨h1, by rw [hc2, hcol]⟩
          · exact hcond ⟨h1, ⟨col2, hcol, hc2⟩, h3⟩)]

theorem fill_rows_fold_apply (randInt : Nat → Nat → Nat) (board_size : Nat) :
    ∀ (rows : List Nat) (b : Board) (r c : Int),
      ((rows.foldl (fill_row randInt board_size) b) r c) =
        if (∃ row ∈ rows, r = (row : Int)) ∧
            (∃ col ∈ List.range board_size, c = (col : Int)) ∧ b r c = none then
          some (Char.ofNat (randInt r.toNat c.toNat))
        else b r c := by
  intro rows
  induction rows with
  | nil => intro b r c; simp
  | cons row rows ih =>
    intro b r c
    rw [List.foldl_cons, ih]
    have hrow : fill_row randInt board_size b row r c =
        if r = (row : Int) ∧ (∃ col ∈ List.range board_size, c = (col : Int)) ∧ b r c = none
        then some (Char.ofNat (randInt row c.toNat)) else b r c := by
      unfold fill_row
      exact fill_cells_fold_apply randInt row (List.range board_size) b r c
    by_cases hp : r = (row : Int)
    · subst hp
      by_cases hcond : (∃ col ∈ List.range board_size, c = (col : Int)) ∧
          b (row : Int) c = none
      · have hval : fill_row randInt board_size b row (row : Int) c =
            some (Char.ofNat (randInt row c.toNat)) := by
          rw [hrow, if_pos ⟨rfl, hcond.1, hcond.2⟩]
        rw [if_neg (by rw [hval]; rintro ⟨-, -, hcon⟩; exact Option.some_ne_none _ hcon)]
        rw [hval, if_pos ⟨⟨row, by simp, rfl⟩, hcond.1, hcond.2⟩]
        simp
      · have hval : fill_row randInt board_size b row (row : Int) c =
            b (row : Int) c := by
          rw [hrow, if_neg (by rintro ⟨-, h2, h3⟩; exact hcond ⟨h2, h3⟩)]
        rw [hval]
        by_cases hrest : (∃ row2 ∈ rows, (row : Int) = (row2 : Int)) ∧
            (∃ col ∈ List.range board_size, c = (col : Int)) ∧ b (row : Int) c = none
        · exact absurd ⟨hrest.2.1, hrest.2.2⟩ hcond
        · rw [if_neg hrest]
          rw [if_neg (show ¬((∃ row2 ∈ row :: rows, (row : Int) = (row2 : Int)) ∧
              (∃ col ∈ List.range board_size, c = (col : Int)) ∧ b (row : Int) c = none)
            from by rintro ⟨-, h2, h3⟩; exact hcond ⟨h2, h3⟩)]
    · have hval : fill_row randInt board_size b row r c = b r c := by
        rw [hrow, if_neg (by rintro ⟨h1, -, -⟩; exact hp h1)]
      rw [hval]
      by_cases hcond : (∃ row2 ∈ rows, r = (row2 : Int)) ∧
          (∃ col ∈ List.range board_size, c = (col : Int)) ∧ b r c = none
      · rw [if_pos hcond]
        rw [if_pos (show (∃ row2 ∈ row :: rows, r = (row2 : Int)) ∧
            (∃ col ∈ List.range board_size, c = (col : Int)) ∧ b r c = none from ⟨by
              obtain ⟨row2, hmem, hr2⟩ := hcond.1
              exact ⟨row2, by simp [hmem], hr2⟩, hcond.2.1, hcond.2.2⟩)]
      · rw [if_neg hcond]
        rw [if_neg (show ¬((∃ row2 ∈ row :: rows, r = (row2 : Int)) ∧
            (∃ col ∈ List.range board_size, c = (col : Int)) ∧ b r c = none) from by
          rintro ⟨⟨row2, hmem, hr2⟩, h2, h3⟩
          rcases List.mem_cons.mp hmem with hrow2 | hrow2
          · exact hp (by rw [hr2, hrow2])
          · exact hcond ⟨⟨row2, hrow2, hr2⟩, h2, h3⟩)]

theorem fill_empty_cells_apply (board : Board) (board_size : Nat) (randInt : Nat → Nat → Nat)
    (r c : Int) :
    fill_empty_cells board board_size randInt r c =
      if 0 ≤ r ∧ r < (board_size : Int) ∧ 0 ≤ c ∧ c < (board_size : Int) ∧ board r c = none
      then some (Char.ofNat (randInt r.toNat c.toNat))
      else board r c := by
  unfold fill_empty_cells
  rw [fill_rows_fold_apply]
  apply if_congr _ rfl rfl
  simp only [List.mem_range]
  constructor
  · rintro ⟨⟨row, hrow, rfl⟩, ⟨col, hcol, rfl⟩, hb⟩
    refine ⟨by omega, by omega, by omega, by omega, hb⟩
  · rintro ⟨h1, h2, h3, h4, hb⟩
    exact ⟨⟨r.toNat, by omega, by omega⟩, ⟨c.toNat, by omega, by omega⟩, hb⟩

theorem char_ofNat_in_AZ (n : Nat) (h1 : 65 ≤ n) (h2 : n ≤ 90) :
    'A' ≤ Char.ofNat n ∧ Char.ofNat n ≤ 'Z' := by
  interval_cases n <;> exact ⟨by decide, by decide⟩

/-! ### The initial candidate pool -/

theorem initial_positions_mem (board_size : Nat) (p : Position) :
    p ∈ initial_positions board_size ↔
      0 ≤ p.1 ∧ p.1 ≤ (board_size : Int) - 2 ∧ 0 ≤ p.2 ∧ p.2 ≤ (board_size : Int) - 2 := by
  unfold initial_positions
  constructor
  · intro hp
    obtain ⟨r, hr, hp2⟩ := List.mem_bind.mp hp
    obtain ⟨c, hc, heq⟩ := List.mem_map.mp hp2
    rw [List.mem_range] at hr hc
    subst heq
    dsimp only
    omega
  · rintro ⟨h1, h2, h3, h4⟩
    apply List.mem_bind.mpr
    refine ⟨p.1.toNat, List.mem_range.mpr (by omega), ?_⟩
    apply List.mem_map.mpr
    refine ⟨p.2.toNat, List.mem_range.mpr (by omega), ?_⟩
    have e1 : ((p.1.toNat : Nat) : Int) = p.1 := by omega
    have e2 : ((p.2.toNat : Nat) : Int) = p.2 := by omega
    rw [e1, e2]

/-! ### Degenerate inputs -/

theorem populate_fold_no_positions (board_size : Nat)
    (shuffle : Nat → List Position → List Position) (dirAt : Nat → Nat → Direction)
    (hshuffle : ∀ i l, (shuffle i l).Perm l) (board : Board) :
    ∀ l : List (Nat × List Char),
      l.foldl (populate_step board_size shuffle dirAt) (board, [], [], [], 0) =
        (board, [], [], [], 0) := by
  intro l
  induction l with
  | nil => rfl
  | cons iw rest ih =>
    rw [List.foldl_cons]
    have hstep : populate_step board_size shuffle dirAt (board, [], [], [], 0) iw =
        (board, [], [], [], 0) := by
      simp only [populate_step]
      have hs : shuffle iw.1 ([] ++ []) = [] := (hshuffle iw.1 ([] ++ [])).eq_nil
      rw [hs]
      simp [try_place_word, try_place_loop]
    rw [hstep]
    exact ih


/-! ### Claim theorems -/

/-- Claim C1 (code bug): the claim and the docstring of
`create_all_directions` describe all 8 non-zero unit vectors, including
horizontal and vertical directions, but the filter
`d[0] != 0 and d[1] != 0` keeps only the 4 diagonal directions: the
horizontal direction `(0, 1)` and the vertical direction `(1, 0)` are
missing from the generated set. -/
theorem c1_directions_only_diagonals :
    create_all_directions = [(-1, -1), (-1, 1), (1, -1), (1, 1)] ∧
      ((0, 1) : Direction) ∉ create_all_directions ∧
      ((1, 0) : Direction) ∉ create_all_directions :=
  ⟨by decide, by decide, by decide⟩

set_option maxRecDepth 10000 in
/-- Claim C2 counterexample: the claim that `get_vocabulary` returns a
sequence with no duplicates after uppercasing is false.  Deduplication via
`set()` happens on the raw strings before `word.upper()`, and the raw list
contains both `"CROWN"` and `"Crown"`, so the uppercased output contains
`"CROWN"` twice.  The exhibited output is a valid run of `get_vocabulary`
(with the identity enumeration of the set and the identity shuffle) and is
not duplicate-free. -/
theorem c2_counterexample_dedup_before_upper :
    get_vocabulary_spec (rawVocabulary.dedup.map upper) ∧
      ¬(rawVocabulary.dedup.map upper).Nodup := by
  constructor
  · exact ⟨rawVocabulary.dedup, List.nodup_dedup _, fun x => List.mem_dedup, List.Perm.refl _⟩
  · intro hnodup
    have hinj := List.inj_on_of_nodup_map hnodup
    have h1 : ("CROWN" : String) ∈ rawVocabulary.dedup := List.mem_dedup.mpr (by decide)
    have h2 : ("Crown" : String) ∈ rawVocabulary.dedup := List.mem_dedup.mpr (by decide)
    have hup : upper "CROWN" = upper "Crown" := by decide
    have hcon := hinj h1 h2 hup
    exact absurd hcon (by decide)

/-- Claim C2 amended: the vocabulary sequence handed to the engine is
deduplicated only with respect to the raw (case-sensitive) strings, before
uppercasing: every run of `get_vocabulary` is a permutation of `upper`
mapped over the duplicate-free list of distinct raw words, so words that
differ only in letter case (such as `"CROWN"`/`"Crown"`) occur more than
once after normalization. -/
theorem c2_amended_vocabulary_perm (out : List String)
    (hout : get_vocabulary_spec out) :
    out.Perm (rawVocabulary.dedup.map upper) := by
  obtain ⟨l, hnodup, hmem, hperm⟩ := hout
  refine hperm.trans (List.Perm.map upper ?_)
  exact (List.perm_ext_iff_of_nodup hnodup (List.nodup_dedup _)).mpr
    (fun a => by rw [hmem a, List.mem_dedup])

/-- Claim C2 amended, witness at a concrete run of `get_vocabulary`. -/
theorem c2_amended_vocabulary_perm_witness :
    get_vocabulary_spec (rawVocabulary.dedup.map upper) ∧
      (rawVocabulary.dedup.map upper).Perm (rawVocabulary.dedup.map upper) := by
  have hspec : get_vocabulary_spec (rawVocabulary.dedup.map upper) :=
    ⟨rawVocabulary.dedup, List.nodup_dedup _, fun x => List.mem_dedup, List.Perm.refl _⟩
  exact ⟨hspec, c2_amended_vocabulary_perm _ hspec⟩

/-- Claim C3: `can_place_word` returns `true` exactly when, for every index
`i` below the word length, the cell `position + i * direction` lies inside
`[0, board_size)` in both coordinates and the grid there is empty or already
holds `word[i]`; in particular it is `false` as soon as any computed cell is
out of bounds or holds a different letter. -/
theorem c3_can_place_word_iff (board : Board) (board_size : Nat) (word : List Char)
    (position direction : Position) :
    can_place_word board board_size word position direction = true ↔
      ∀ i : Nat, (h : i < word.length) →
        inBoundsCell board_size position direction i ∧
          (board (cellR position direction i) (cellC position direction i) = none ∨
            board (cellR position direction i) (cellC position direction i) =
              some (word.get ⟨i, h⟩)) :=
  can_place_word_iff board board_size word position direction

/-- Claim C4: every word in the placed-words list returned by
`populate_board` is readable on the returned grid: some accepted position
and direction put every character of the word, inside the board bounds, at
a grid cell holding exactly that character.  The oracle `dirAt` models
`random.choice(directions)`, so it returns members of `directions`; the
program passes the non-zero direction set of `create_all_directions`. -/
theorem c4_populate_placed_words_readable (board0 : Board) (board_size : Nat)
    (vocabulary : List (List Char)) (directions : List Direction)
    (shuffle : Nat → List Position → List Position) (dirAt : Nat → Nat → Direction)
    (hchoice : ∀ i k, dirAt i k ∈ directions) (hdirs : ∀ d ∈ directions, d ≠ (0, 0)) :
    ∀ W ∈ (populate_board board0 board_size vocabulary directions shuffle dirAt).2.1,
      PlacedOK board_size
        (populate_board board0 board_size vocabulary directions shuffle dirAt).1 W := by
  intro W hW
  have hdir : ∀ i k, dirAt i k ≠ (0, 0) := fun i k => hdirs _ (hchoice i k)
  simp only [populate_board] at hW ⊢
  exact populate_fold_inv board_size shuffle dirAt hdir vocabulary.enum
    (board0, initial_positions board_size, [], [], 0)
    (fun W2 hW2 => absurd hW2 (by simp)) W hW

/-- Claim C4, witness at a concrete engine run: with a 5×5 board, the single
word CAT and the constant diagonal direction choice, the engine places CAT
and the theorem yields its readability on the final grid. -/
theorem c4_populate_placed_words_readable_witness :
    (['C', 'A', 'T'] ∈ (populate_board (init_board 5) 5 [['C', 'A', 'T']]
        create_all_directions (fun _ l => l) (fun _ _ => ((1 : Int), (1 : Int)))).2.1) ∧
      PlacedOK 5
        (populate_board (init_board 5) 5 [['C', 'A', 'T']] create_all_directions
          (fun _ l => l) (fun _ _ => ((1 : Int), (1 : Int)))).1 ['C', 'A', 'T'] := by
  have hmem : ['C', 'A', 'T'] ∈ (populate_board (init_board 5) 5 [['C', 'A', 'T']]
      create_all_directions (fun _ l => l) (fun _ _ => ((1 : Int), (1 : Int)))).2.1 := by
    decide
  exact ⟨hmem, c4_populate_placed_words_readable (init_board 5) 5 [['C', 'A', 'T']]
    create_all_directions (fun _ l => l) (fun _ _ => ((1 : Int), (1 : Int)))
    (fun _ _ => show ((1 : Int), (1 : Int)) ∈ create_all_directions by decide) (by decide)
    ['C', 'A', 'T'] hmem⟩

/-- Claim C5: once a grid cell holds a letter it is never overwritten with a
different letter.  First part: a single accepted placement (`place_word`
guarded by `can_place_word`) preserves every already-written letter, so any
cell written by two accepted placements holds the same character in both.
Second part: the whole engine run preserves every letter present on the
starting board. -/
theorem c5_letters_never_overwritten :
    (∀ (board : Board) (board_size : Nat) (word : List Char)
        (position direction : Position) (r c : Int) (v : Char),
        can_place_word board board_size word position direction = true →
        board r c = some v →
        place_word board word position direction r c = some v) ∧
      (∀ (board0 : Board) (board_size : Nat) (vocabulary : List (List Char))
          (directions : List Direction) (shuffle : Nat → List Position → List Position)
          (dirAt : Nat → Nat → Direction) (r c : Int) (v : Char),
          board0 r c = some v →
          (populate_board board0 board_size vocabulary directions shuffle dirAt).1 r c =
            some v) := by
  constructor
  · intro board board_size word position direction r c v hcan hv
    exact place_word_preserve board board_size word position direction r c v hcan hv
  · intro board0 board_size vocabulary directions shuffle dirAt r c v hv
    simp only [populate_board]
    exact populate_fold_mono board_size shuffle dirAt vocabulary.enum
      (board0, initial_positions board_size, [], [], 0) r c v hv

/-- Claim C5, witness at concrete boards. -/
theorem c5_letters_never_overwritten_witness :
    (can_place_word (fun _ _ => some 'A') 1 ['A'] (0, 0) (1, 1) = true ∧
        place_word (fun _ _ => some 'A') ['A'] (0, 0) (1, 1) 0 0 = some 'A') ∧
      (populate_board (fun _ _ => some 'B') 2 [] create_all_directions
          (fun _ l => l) (fun _ _ => (1, 1))).1 0 0 = some 'B' := by
  have hcan : can_place_word (fun _ _ => some 'A') 1 ['A'] (0, 0) (1, 1) = true := by decide
  exact ⟨⟨hcan, c5_letters_never_overwritten.1 (fun _ _ => some 'A') 1 ['A'] (0, 0) (1, 1)
      0 0 'A' hcan rfl⟩,
    c5_letters_never_overwritten.2 (fun _ _ => some 'B') 2 [] create_all_directions
      (fun _ l => l) (fun _ _ => (1, 1)) 0 0 'B' rfl⟩

/-- Claim C6: after the filler runs, every cell of the N×N grid holds one
uppercase letter between A and Z and no empty cell remains.  The oracle
`randInt` models `random.randint(ord('A'), ord('Z'))`, so its values lie in
`[65, 90]`; the input grid satisfies the Grid data-model invariant that
every non-empty cell holds an uppercase letter. -/
theorem c6_filled_grid_all_uppercase (board : Board) (board_size : Nat)
    (randInt : Nat → Nat → Nat)
    (hrand : ∀ r c : Nat, 65 ≤ randInt r c ∧ randInt r c ≤ 90)
    (hboard : ∀ (r c : Int) (ch : Char), board r c = some ch → 'A' ≤ ch ∧ ch ≤ 'Z') :
    ∀ r c : Nat, r < board_size → c < board_size →
      ∃ ch : Char,
        fill_empty_cells board board_size randInt (r : Int) (c : Int) = some ch ∧
          'A' ≤ ch ∧ ch ≤ 'Z' := by
  intro r c hr hc
  rw [fill_empty_cells_apply]
  by_cases hcell : board (r : Int) (c : Int) = none
  · rw [if_pos ⟨by omega, by omega, by omega, by omega, hcell⟩]
    exact ⟨_, rfl, char_ofNat_in_AZ (randInt ((r : Int)).toNat ((c : Int)).toNat)
      (hrand _ _).1 (hrand _ _).2⟩
  · rw [if_neg (by rintro ⟨-, -, -, -, hcon⟩; exact hcell hcon)]
    obtain ⟨ch, hch⟩ := Option.ne_none_iff_exists'.mp hcell
    exact ⟨ch, hch, hboard _ _ ch hch⟩

/-- Claim C6, witness at a concrete empty grid. -/
theorem c6_filled_grid_all_uppercase_witness :
    ∃ ch : Char,
      fill_empty_cells (init_board 2) 2 (fun _ _ => 65) ((0 : Nat) : Int) ((0 : Nat) : Int) =
          some ch ∧ 'A' ≤ ch ∧ ch ≤ 'Z' :=
  c6_filled_grid_all_uppercase (init_board 2) 2 (fun _ _ => 65)
    (fun _ _ => ⟨show 65 ≤ 65 by omega, show (65 : Nat) ≤ 90 by omega⟩)
    (fun _ _ ch h => absurd h (by simp [init_board])) 0 0 (by omega) (by omega)

/-- Claim C7: the engine always terminates.  First part: the attempt loop of
`populate_board` halts within `positions.length` iterations, because every
iteration pops one position from the pool, so running it with that much fuel
already yields the total-function result.  Second part: consequently the
whole algorithm is bounded: the fuel-indexed `populate_board_fuel`, which
gives every word exactly its pool size of fuel, never runs out and computes
exactly `populate_board`. -/
theorem c7_attempt_loop_bounded :
    (∀ (board : Board) (board_size : Nat) (word : List Char) (dirAt : Nat → Direction)
        (fuel : Nat) (positions pop_positions : List Position) (k : Nat),
        positions.length ≤ fuel →
        try_place_loop_fuel board board_size word dirAt fuel positions pop_positions k =
          some (try_place_loop board board_size word dirAt positions pop_positions k)) ∧
      (∀ (board : Board) (board_size : Nat) (vocabulary : List (List Char))
          (directions : List Direction) (shuffle : Nat → List Position → List Position)
          (dirAt : Nat → Nat → Direction),
          populate_board_fuel board board_size vocabulary directions shuffle dirAt =
            some (populate_board board board_size vocabulary directions shuffle dirAt)) :=
  ⟨fun board board_size word dirAt fuel positions pop k h =>
      try_place_loop_fuel_complete board board_size word dirAt fuel positions pop k h,
    fun board board_size vocabulary directions shuffle dirAt =>
      populate_board_fuel_eq board board_size vocabulary directions shuffle dirAt⟩

/-- Claim C7, witness at a concrete loop run. -/
theorem c7_attempt_loop_bounded_witness :
    ([((0 : Int), (0 : Int))] : List Position).length ≤ 1 ∧
      try_place_loop_fuel (init_board 1) 1 ['A', 'B'] (fun _ => (1, 1)) 1
          [((0 : Int), (0 : Int))] [] 0 =
        some (try_place_loop (init_board 1) 1 ['A', 'B'] (fun _ => (1, 1))
          [((0 : Int), (0 : Int))] [] 0) :=
  ⟨by decide, c7_attempt_loop_bounded.1 (init_board 1) 1 ['A', 'B'] (fun _ => (1, 1)) 1
    [((0 : Int), (0 : Int))] [] 0 (by decide)⟩

/-- Claim C8: the initial candidate pool of the engine is exactly the
positions `(r, c)` with `0 ≤ r ≤ N - 2` and `0 ≤ c ≤ N - 2`: the source
iterates `product(range(0, board_size - 1), range(0, board_size - 1))`,
excluding the last row and the last column as starting positions. -/
theorem c8_initial_pool_excludes_last_row_col (board_size : Nat) (p : Position) :
    p ∈ initial_positions board_size ↔
      0 ≤ p.1 ∧ p.1 ≤ (board_size : Int) - 2 ∧ 0 ≤ p.2 ∧ p.2 ≤ (board_size : Int) - 2 :=
  initial_positions_mem board_size p

/-- Claim C9 counterexample: the claim that degenerate inputs fail fast with
an `InvalidConfiguration` condition is false: the program contains no
validation at all.  On an empty vocabulary, and on board size 0, placement
logic runs and returns normally — an unchanged board, an empty placed list
and `max_length = 0` — instead of signalling any error condition. -/
theorem c9_counterexample_no_validation :
    populate_board (init_board 20) 20 [] create_all_directions (fun _ l => l)
        (fun _ _ => (1, 1)) = (init_board 20, [], 0) ∧
      populate_board (init_board 0) 0 [['A']] create_all_directions (fun _ l => l)
        (fun _ _ => (1, 1)) = (init_board 0, [], 0) :=
  ⟨rfl, rfl⟩

/-- Claim C9 amended: the orchestrating layer performs no degenerate-input
validation and no `InvalidConfiguration` condition exists in the program;
on an empty vocabulary, or on a board size of 0 (the only representation of
N ≤ 0 for a natural size), generation proceeds silently and the engine
returns the unchanged board, an empty placed-word list and `max_length`
0. -/
theorem c9_amended_degenerate_inputs_silent :
    (∀ (board : Board) (board_size : Nat) (directions : List Direction)
        (shuffle : Nat → List Position → List Position) (dirAt : Nat → Nat → Direction),
        populate_board board board_size [] directions shuffle dirAt = (board, [], 0)) ∧
      (∀ (board : Board) (vocabulary : List (List Char)) (directions : List Direction)
          (shuffle : Nat → List Position → List Position) (dirAt : Nat → Nat → Direction),
          (∀ i l, (shuffle i l).Perm l) →
          populate_board board 0 vocabulary directions shuffle dirAt = (board, [], 0)) := by
  constructor
  · intro board board_size directions shuffle dirAt
    rfl
  · intro board vocabulary directions shuffle dirAt hshuffle
    simp only [populate_board]
    have h0 : initial_positions 0 = [] := rfl
    rw [h0, populate_fold_no_positions 0 shuffle dirAt hshuffle board vocabulary.enum]

/-- Claim C9 amended, witness at a concrete degenerate run. -/
theorem c9_amended_degenerate_inputs_silent_witness :
    populate_board (fun _ _ => none) 0 [['B']] [] (fun _ l => l) (fun _ _ => (1, 1)) =
      ((fun _ _ => none : Board), [], 0) :=
  c9_amended_degenerate_inputs_silent.2 (fun _ _ => none) [['B']] [] (fun _ l => l)
    (fun _ _ => (1, 1)) (fun _ l => List.Perm.refl l)

/-- Claim C10: the filler never alters an already-written letter: every cell
holding a letter before `fill_empty_cells` holds the same letter afterwards,
for every grid, board size and randomness oracle. -/
theorem c10_fill_preserves_existing_letters (board : Board) (board_size : Nat)
    (randInt : Nat → Nat → Nat) (r c : Int) (v : Char) (h : board r c = some v) :
    fill_empty_cells board board_size randInt r c = some v := by
  rw [fill_empty_cells_apply]
  rw [if_neg (by rintro ⟨-, -, -, -, hcon⟩; rw [hcon] at h; exact Option.noConfusion h)]
  exact h

/-- Claim C10, witness at a concrete pre-filled grid. -/
theorem c10_fill_preserves_existing_letters_witness :
    fill_empty_cells (fun _ _ => some 'B') 3 (fun _ _ => 70) 0 0 = some 'B' :=
  c10_fill_preserves_existing_letters (fun _ _ => some 'B') 3 (fun _ _ => 70) 0 0 'B' rfl

end WordSearchGen
